import Mathlib

/-!
# Verification of the task-tracker core

A shallow embedding of the task-tracker Go program: the task entity
(`NewTask`, `Task.UpdateDescription`, `Task.MarkInProgress`, `Task.MarkDone`),
the repository contract (`RepoState.Load`, `RepoState.Save`,
`RepoState.GetNextID`, and a model of `FileTaskRepository.Load`), and the
application service (`TaskService.AddTask`, `TaskService.UpdateTask`,
`TaskService.DeleteTask`, `TaskService.MarkTaskInProgress`,
`TaskService.MarkTaskDone`, `TaskService.ListTasks`).

Modelling choices:
- `time.Time` values become `Nat`; each mutating entity operation receives the
  `now` timestamp explicitly instead of calling `time.Now()`.
- Go `int` becomes `Int`.
- The repository is modelled by an explicit state `RepoState` holding the
  stored collection; `Save` replaces it wholesale and bumps a save counter so
  that "the save operation was not invoked" is expressible. This matches the
  in-memory `TestTaskRepository` and the success path of `FileTaskRepository`.
- Service operations return the Go result/error pair together with the
  post-state: `(Except TaskError α) × RepoState`.
- `strings.TrimSpace` is embedded as `trimSpace`, trimming exactly the code
  points Go's `unicode.IsSpace` accepts.
-/

deriving instance DecidableEq for Except

namespace TaskTracker

/-- Embeds Go `TaskStatus` (a string type): see the model source file. -/
abbrev TaskStatus := String

def StatusTodo : TaskStatus := "todo"

def StatusInProgress : TaskStatus := "in-progress"

def StatusDone : TaskStatus := "done"

/-- Embeds the Go `Task` struct; timestamps are abstracted to `Nat`. -/
structure Task where
  ID : Int
  Description : String
  Status : TaskStatus
  CreatedAt : Nat
  UpdatedAt : Nat
deriving DecidableEq

/-- Embeds the Go `TaskError` struct (`Code`, `Message`). -/
structure TaskError where
  Code : String
  Message : String
deriving DecidableEq

def ErrTaskNotFound : TaskError :=
  { Code := "NOT_FOUND", Message := "Task not found" }

def ErrInvalidStatus : TaskError :=
  { Code := "INVALID_STATUS", Message := "Invalid task status" }

def ErrEmptyDescription : TaskError :=
  { Code := "EMPTY_DESCRIPTION", Message := "Task description cannot be empty" }

def ErrInvalidID : TaskError :=
  { Code := "INVALID_ID", Message := "Invalid task ID" }

/-- The code points Go's `unicode.IsSpace` (hence `strings.TrimSpace`)
treats as white space: ASCII space characters plus the Unicode
`White_Space` code points. -/
def goIsSpace (c : Char) : Bool :=
  c.val = 9 || c.val = 10 || c.val = 11 || c.val = 12 || c.val = 13 ||
  c.val = 32 || c.val = 0x85 || c.val = 0xA0 || c.val = 0x1680 ||
  (0x2000 ≤ c.val && c.val ≤ 0x200A) || c.val = 0x2028 || c.val = 0x2029 ||
  c.val = 0x202F || c.val = 0x205F || c.val = 0x3000

/-- Embeds Go `strings.TrimSpace`: drop leading and trailing white space. -/
def trimSpace (s : String) : String :=
  String.mk (((s.toList.dropWhile goIsSpace).reverse.dropWhile goIsSpace).reverse)

/-- Embeds Go `NewTask`: rejects a description that is empty after trimming,
otherwise builds a `todo` task whose two timestamps are both `now`. -/
def NewTask (id : Int) (description : String) (now : Nat) : Except TaskError Task :=
  if trimSpace description = "" then
    .error ErrEmptyDescription
  else
    .ok { ID := id, Description := trimSpace description, Status := StatusTodo,
          CreatedAt := now, UpdatedAt := now }

/-- Embeds Go `Task.UpdateDescription`. -/
def Task.UpdateDescription (t : Task) (description : String) (now : Nat) :
    Except TaskError Task :=
  if trimSpace description = "" then
    .error ErrEmptyDescription
  else
    .ok { t with Description := trimSpace description, UpdatedAt := now }

/-- Embeds Go `Task.MarkInProgress`. -/
def Task.MarkInProgress (t : Task) (now : Nat) : Task :=
  { t with Status := StatusInProgress, UpdatedAt := now }

/-- Embeds Go `Task.MarkDone`. -/
def Task.MarkDone (t : Task) (now : Nat) : Task :=
  { t with Status := StatusDone, UpdatedAt := now }

/-- Repository state: the stored collection, plus a counter of how many times
`Save` ran (so "no save is performed" is a provable statement). -/
structure RepoState where
  tasks : List Task
  saveCount : Nat
deriving DecidableEq

/-- Embeds the repository `Load`: returns the stored collection. -/
def RepoState.Load (s : RepoState) : List Task :=
  s.tasks

/-- Embeds the repository `Save`: replaces the whole stored collection. -/
def RepoState.Save (s : RepoState) (tasks : List Task) : RepoState :=
  { tasks := tasks, saveCount := s.saveCount + 1 }

/-- The `maxID` loop of Go `FileTaskRepository.GetNextID`: starts at `0` and
keeps the larger of the accumulator and each task's id. -/
def goMaxID (tasks : List Task) : Int :=
  tasks.foldl (fun maxID t => if t.ID > maxID then t.ID else maxID) 0

/-- Embeds Go `FileTaskRepository.GetNextID` (also mimicked by the in-memory
test repository): `maxID + 1` over the loaded collection. -/
def RepoState.GetNextID (s : RepoState) : Int :=
  goMaxID s.Load + 1

/-- Embeds Go `TaskService.AddTask`: next id, construct (propagating the
validation error without saving), load, append, save. -/
def TaskService.AddTask (s : RepoState) (description : String) (now : Nat) :
    Except TaskError Task × RepoState :=
  let nextID := s.GetNextID
  match NewTask nextID description now with
  | .error e => (.error e, s)
  | .ok task =>
      let tasks := s.Load
      let tasks := tasks ++ [task]
      (.ok task, s.Save tasks)

/-- The linear scan of Go `TaskService.UpdateTask` rendered functionally:
find the first task with the given id, apply `UpdateDescription` to it and
keep everything else; `ErrTaskNotFound` when the scan finds nothing, and any
entity error is propagated. -/
def updateTaskInList (id : Int) (description : String) (now : Nat) :
    List Task → Except TaskError (List Task)
  | [] => .error ErrTaskNotFound
  | t :: ts =>
      if t.ID = id then
        match t.UpdateDescription description now with
        | .error e => .error e
        | .ok t2 => .ok (t2 :: ts)
      else
        match updateTaskInList id description now ts with
        | .error e => .error e
        | .ok ts2 => .ok (t :: ts2)

/-- Embeds Go `TaskService.UpdateTask`: load, scan/update, save on success. -/
def TaskService.UpdateTask (s : RepoState) (id : Int) (description : String)
    (now : Nat) : Except TaskError Unit × RepoState :=
  let tasks := s.Load
  match updateTaskInList id description now tasks with
  | .error e => (.error e, s)
  | .ok tasks2 => (.ok (), s.Save tasks2)

/-- The scan-and-excise of Go `TaskService.DeleteTask` (`slices.Delete` at
the found index) rendered functionally. -/
def deleteTaskInList (id : Int) : List Task → Except TaskError (List Task)
  | [] => .error ErrTaskNotFound
  | t :: ts =>
      if t.ID = id then
        .ok ts
      else
        match deleteTaskInList id ts with
        | .error e => .error e
        | .ok ts2 => .ok (t :: ts2)

/-- Embeds Go `TaskService.DeleteTask`. -/
def TaskService.DeleteTask (s : RepoState) (id : Int) :
    Except TaskError Unit × RepoState :=
  let tasks := s.Load
  match deleteTaskInList id tasks with
  | .error e => (.error e, s)
  | .ok tasks2 => (.ok (), s.Save tasks2)

/-- The scan of Go `TaskService.updateTaskStatus` rendered functionally:
apply `updateFn` to the first task with the given id. -/
def updateStatusInList (id : Int) (updateFn : Task → Task) :
    List Task → Except TaskError (List Task)
  | [] => .error ErrTaskNotFound
  | t :: ts =>
      if t.ID = id then
        .ok (updateFn t :: ts)
      else
        match updateStatusInList id updateFn ts with
        | .error e => .error e
        | .ok ts2 => .ok (t :: ts2)

/-- Embeds Go `TaskService.updateTaskStatus`. -/
def TaskService.updateTaskStatus (s : RepoState) (id : Int)
    (updateFn : Task → Task) : Except TaskError Unit × RepoState :=
  let tasks := s.Load
  match updateStatusInList id updateFn tasks with
  | .error e => (.error e, s)
  | .ok tasks2 => (.ok (), s.Save tasks2)

/-- Embeds Go `TaskService.MarkTaskInProgress`. -/
def TaskService.MarkTaskInProgress (s : RepoState) (id : Int) (now : Nat) :
    Except TaskError Unit × RepoState :=
  TaskService.updateTaskStatus s id (fun t => t.MarkInProgress now)

/-- Embeds Go `TaskService.MarkTaskDone`. -/
def TaskService.MarkTaskDone (s : RepoState) (id : Int) (now : Nat) :
    Except TaskError Unit × RepoState :=
  TaskService.updateTaskStatus s id (fun t => t.MarkDone now)

/-- Embeds Go `TaskService.ListTasks`: empty filter returns everything,
otherwise keep exactly the tasks whose status string equals the filter. -/
def TaskService.ListTasks (s : RepoState) (status : String) :
    Except TaskError (List Task) × RepoState :=
  let tasks := s.Load
  if status = "" then
    (.ok tasks, s)
  else
    (.ok (tasks.filter (fun t => t.Status = status)), s)

/-- Embeds Go `FileTaskRepository.Load`. The durable artifact is `none` when
the file does not exist and `some data` otherwise; `unmarshal` abstracts the
external `json.Unmarshal` on the raw bytes. Missing file and empty file both
yield the empty collection; unparseable data yields a (wrapped) parse error;
otherwise the parsed collection is returned as is. -/
def FileTaskRepository.Load (file : Option String)
    (unmarshal : String → Except String (List Task)) :
    Except String (List Task) :=
  match file with
  | none => .ok []
  | some data =>
      if data = "" then
        .ok []
      else
        match unmarshal data with
        | .error e => .error ("failed to unmarshal tasks: " ++ e)
        | .ok tasks => .ok tasks

/-- One service-level operation, for reasoning about arbitrary sequences of
use-case calls. -/
inductive Op where
  | add (description : String) (now : Nat)
  | update (id : Int) (description : String) (now : Nat)
  | delete (id : Int)
  | markInProgress (id : Int) (now : Nat)
  | markDone (id : Int) (now : Nat)
deriving DecidableEq

/-- Run one service operation, keeping only the post-state. -/
def applyOp (s : RepoState) : Op → RepoState
  | .add d now => (TaskService.AddTask s d now).2
  | .update id d now => (TaskService.UpdateTask s id d now).2
  | .delete id => (TaskService.DeleteTask s id).2
  | .markInProgress id now => (TaskService.MarkTaskInProgress s id now).2
  | .markDone id now => (TaskService.MarkTaskDone s id now).2

/-- Run a sequence of service operations. -/
def runOps (s : RepoState) (ops : List Op) : RepoState :=
  ops.foldl applyOp s

/-- One entity-level mutation, for reasoning about arbitrary sequences of
mutations of a single task. `updateDescription` leaves the task unchanged
when the entity rejects the input. -/
inductive EntityOp where
  | updateDescription (description : String) (now : Nat)
  | markInProgress (now : Nat)
  | markDone (now : Nat)
deriving DecidableEq

/-- The timestamp an entity operation carries. -/
def EntityOp.time : EntityOp → Nat
  | .updateDescription _ now => now
  | .markInProgress now => now
  | .markDone now => now

/-- Apply one entity mutation; a failed `UpdateDescription` leaves the task
unchanged (the Go method returns before mutating). -/
def applyEntityOp (t : Task) : EntityOp → Task
  | .updateDescription d now =>
      match t.UpdateDescription d now with
      | .error _ => t
      | .ok t2 => t2
  | .markInProgress now => t.MarkInProgress now
  | .markDone now => t.MarkDone now

/-- Run a sequence of entity mutations. -/
def runEntityOps (t : Task) (ops : List EntityOp) : Task :=
  ops.foldl applyEntityOp t

/-- Modelled from the spec: "(max existing id)" over a non-empty collection
(the spec's words for what `GetNextID` should add one to). Returns the
genuine maximum of the ids, with no floor at zero. -/
def specMaxID : List Task → Int
  | [] => 0
  | t :: ts => ts.foldl (fun m u => max m u.ID) t.ID

/-! ## Helper lemmas -/

theorem foldl_maxStep_le (l : List Task) (a : Int) :
    a ≤ l.foldl (fun maxID t => if t.ID > maxID then t.ID else maxID) a := by
  induction l generalizing a with
  | nil => simp
  | cons t ts ih =>
      refine le_trans ?_ (ih (if t.ID > a then t.ID else a))
      split <;> omega

theorem mem_le_foldl_maxStep (l : List Task) (a : Int) (u : Task) (hu : u ∈ l) :
    u.ID ≤ l.foldl (fun maxID t => if t.ID > maxID then t.ID else maxID) a := by
  induction l generalizing a with
  | nil => cases hu
  | cons t ts ih =>
      rcases List.mem_cons.mp hu with h | h
      · subst h
        refine le_trans ?_ (foldl_maxStep_le ts _)
        show u.ID ≤ if u.ID > a then u.ID else a
        split <;> omega
      · exact ih _ h

theorem goMaxID_nonneg (l : List Task) : 0 ≤ goMaxID l :=
  foldl_maxStep_le l 0

theorem mem_le_goMaxID (l : List Task) (u : Task) (hu : u ∈ l) :
    u.ID ≤ goMaxID l :=
  mem_le_foldl_maxStep l 0 u hu

theorem id_lt_GetNextID (s : RepoState) (u : Task) (hu : u ∈ s.tasks) :
    u.ID < s.GetNextID := by
  have := mem_le_goMaxID s.tasks u hu
  unfold RepoState.GetNextID RepoState.Load
  omega

theorem GetNextID_pos (s : RepoState) : 1 ≤ s.GetNextID := by
  have := goMaxID_nonneg s.tasks
  unfold RepoState.GetNextID RepoState.Load
  omega

theorem foldl_maxStep_eq_max (l : List Task) (a : Int) :
    l.foldl (fun maxID t => if t.ID > maxID then t.ID else maxID) a =
      l.foldl (fun m t => max m t.ID) a := by
  induction l generalizing a with
  | nil => rfl
  | cons t ts ih =>
      have hmax : (if t.ID > a then t.ID else a) = max a t.ID := by
        rcases le_or_lt t.ID a with h | h
        · rw [if_neg (not_lt.mpr h), max_eq_left h]
        · rw [if_pos h, max_eq_right h.le]
      simp only [List.foldl_cons, hmax, ih]

theorem foldl_max_out (l : List Task) (a b : Int) :
    l.foldl (fun m t => max m t.ID) (max a b) =
      max a (l.foldl (fun m t => max m t.ID) b) := by
  induction l generalizing b with
  | nil => rfl
  | cons t ts ih =>
      simp only [List.foldl_cons, max_assoc, ih]

theorem goMaxID_eq_max_specMaxID (t : Task) (ts : List Task) :
    goMaxID (t :: ts) = max 0 (specMaxID (t :: ts)) := by
  unfold goMaxID specMaxID
  rw [List.foldl_cons, foldl_maxStep_eq_max]
  have h0 : (if t.ID > (0 : Int) then t.ID else (0 : Int)) = max 0 t.ID := by
    rcases le_or_lt t.ID 0 with h | h
    · rw [if_neg (not_lt.mpr h), max_eq_left h]
    · rw [if_pos h, max_eq_right h.le]
  rw [h0, foldl_max_out]

theorem UpdateDescription_ok_fields (t : Task) (d : String) (now : Nat) (t2 : Task)
    (h : t.UpdateDescription d now = .ok t2) :
    t2.ID = t.ID ∧ t2.CreatedAt = t.CreatedAt ∧ t2.Description = trimSpace d ∧
      t2.UpdatedAt = now ∧ t2.Status = t.Status := by
  unfold Task.UpdateDescription at h
  split at h
  · cases h
  · cases h
    exact ⟨rfl, rfl, rfl, rfl, rfl⟩

theorem UpdateDescription_error (t : Task) (d : String) (now : Nat) (e : TaskError)
    (h : t.UpdateDescription d now = .error e) :
    e = ErrEmptyDescription ∧ trimSpace d = "" := by
  unfold Task.UpdateDescription at h
  split at h
  · cases h
    exact ⟨rfl, by assumption⟩
  · cases h

theorem updateTaskInList_not_found (id : Int) (d : String) (now : Nat)
    (l : List Task) (h : ∀ u ∈ l, u.ID ≠ id) :
    updateTaskInList id d now l = .error ErrTaskNotFound := by
  induction l with
  | nil => rfl
  | cons t ts ih =>
      have ht : t.ID ≠ id := h t (List.mem_cons_self t ts)
      have hts := ih fun u hu => h u (List.mem_cons_of_mem t hu)
      simp only [updateTaskInList, if_neg ht, hts]

theorem updateTaskInList_empty_desc (id : Int) (d : String) (now : Nat)
    (l : List Task) (hd : trimSpace d = "") (u : Task) (hu : u ∈ l)
    (hid : u.ID = id) :
    updateTaskInList id d now l = .error ErrEmptyDescription := by
  induction l with
  | nil => cases hu
  | cons t ts ih =>
      by_cases ht : t.ID = id
      · simp only [updateTaskInList, if_pos ht, Task.UpdateDescription, if_pos hd]
      · rcases List.mem_cons.mp hu with rfl | hu2
        · exact absurd hid ht
        · simp only [updateTaskInList, if_neg ht, ih hu2]

theorem updateTaskInList_error (id : Int) (d : String) (now : Nat)
    (l : List Task) (e : TaskError)
    (h : updateTaskInList id d now l = .error e) :
    e = ErrTaskNotFound ∨ e = ErrEmptyDescription := by
  induction l with
  | nil =>
      unfold updateTaskInList at h
      cases h
      exact .inl rfl
  | cons t ts ih =>
      unfold updateTaskInList at h
      split at h
      · split at h
        · cases h
          rename_i heq
          exact .inr (UpdateDescription_error _ _ _ _ heq).1
        · cases h
      · split at h
        · cases h
          rename_i heq
          exact ih heq
        · cases h

theorem updateTaskInList_ok_ids (id : Int) (d : String) (now : Nat)
    (l l2 : List Task) (h : updateTaskInList id d now l = .ok l2) :
    l2.map Task.ID = l.map Task.ID := by
  induction l generalizing l2 with
  | nil => cases h
  | cons t ts ih =>
      unfold updateTaskInList at h
      split at h
      · split at h
        · cases h
        · cases h
          rename_i t2 heq
          have := (UpdateDescription_ok_fields _ _ _ _ heq).1
          simp [this]
      · split at h
        · cases h
        · cases h
          rename_i ts2 heq
          simp [ih ts2 heq]

theorem deleteTaskInList_not_found (id : Int) (l : List Task)
    (h : ∀ u ∈ l, u.ID ≠ id) :
    deleteTaskInList id l = .error ErrTaskNotFound := by
  induction l with
  | nil => rfl
  | cons t ts ih =>
      have ht : t.ID ≠ id := h t (List.mem_cons_self t ts)
      have hts := ih fun u hu => h u (List.mem_cons_of_mem t hu)
      simp only [deleteTaskInList, if_neg ht, hts]

theorem deleteTaskInList_error (id : Int) (l : List Task) (e : TaskError)
    (h : deleteTaskInList id l = .error e) : e = ErrTaskNotFound := by
  induction l with
  | nil =>
      unfold deleteTaskInList at h
      cases h
      rfl
  | cons t ts ih =>
      unfold deleteTaskInList at h
      split at h
      · cases h
      · split at h
        · cases h
          rename_i heq
          exact ih heq
        · cases h

theorem deleteTaskInList_ok_sublist (id : Int) (l l2 : List Task)
    (h : deleteTaskInList id l = .ok l2) : l2.Sublist l := by
  induction l generalizing l2 with
  | nil => cases h
  | cons t ts ih =>
      unfold deleteTaskInList at h
      split at h
      · cases h
        exact List.sublist_cons_self t _
      · split at h
        · cases h
        · cases h
          rename_i ts2 heq
          exact List.Sublist.cons₂ t (ih ts2 heq)

theorem updateStatusInList_not_found (id : Int) (f : Task → Task)
    (l : List Task) (h : ∀ u ∈ l, u.ID ≠ id) :
    updateStatusInList id f l = .error ErrTaskNotFound := by
  induction l with
  | nil => rfl
  | cons t ts ih =>
      have ht : t.ID ≠ id := h t (List.mem_cons_self t ts)
      have hts := ih fun u hu => h u (List.mem_cons_of_mem t hu)
      simp only [updateStatusInList, if_neg ht, hts]

theorem updateStatusInList_error (id : Int) (f : Task → Task)
    (l : List Task) (e : TaskError)
    (h : updateStatusInList id f l = .error e) : e = ErrTaskNotFound := by
  induction l with
  | nil =>
      unfold updateStatusInList at h
      cases h
      rfl
  | cons t ts ih =>
      unfold updateStatusInList at h
      split at h
      · cases h
      · split at h
        · cases h
          rename_i heq
          exact ih heq
        · cases h

theorem updateStatusInList_ok_ids (id : Int) (f : Task → Task)
    (hf : ∀ u, (f u).ID = u.ID) (l l2 : List Task)
    (h : updateStatusInList id f l = .ok l2) :
    l2.map Task.ID = l.map Task.ID := by
  induction l generalizing l2 with
  | nil => cases h
  | cons t ts ih =>
      unfold updateStatusInList at h
      split at h
      · cases h
        simp [hf]
      · split at h
        · cases h
        · cases h
          rename_i ts2 heq
          simp [ih ts2 heq]

theorem NewTask_ok_fields (id : Int) (d : String) (now : Nat) (t : Task)
    (h : NewTask id d now = .ok t) :
    t.ID = id ∧ t.Description = trimSpace d ∧ t.Status = StatusTodo ∧
      t.CreatedAt = now ∧ t.UpdatedAt = now := by
  unfold NewTask at h
  split at h
  · cases h
  · cases h
    exact ⟨rfl, rfl, rfl, rfl, rfl⟩

theorem NewTask_error (id : Int) (d : String) (now : Nat) (e : TaskError)
    (h : NewTask id d now = .error e) :
    e = ErrEmptyDescription ∧ trimSpace d = "" := by
  unfold NewTask at h
  split at h
  · cases h
    exact ⟨rfl, by assumption⟩
  · cases h

theorem addTask_ok (s : RepoState) (d : String) (now : Nat)
    (hd : trimSpace d ≠ "") :
    TaskService.AddTask s d now =
      (.ok { ID := s.GetNextID, Description := trimSpace d, Status := StatusTodo,
             CreatedAt := now, UpdatedAt := now },
       s.Save (s.tasks ++
         [{ ID := s.GetNextID, Description := trimSpace d, Status := StatusTodo,
            CreatedAt := now, UpdatedAt := now }])) := by
  simp only [TaskService.AddTask, NewTask, if_neg hd, RepoState.Load]

theorem addTask_empty (s : RepoState) (d : String) (now : Nat)
    (hd : trimSpace d = "") :
    TaskService.AddTask s d now = (.error ErrEmptyDescription, s) := by
  simp only [TaskService.AddTask, NewTask, if_pos hd]

theorem pos_of_ids_eq (l l2 : List Task) (hids : l2.map Task.ID = l.map Task.ID)
    (hpos : ∀ u ∈ l, 1 ≤ u.ID) : ∀ u ∈ l2, 1 ≤ u.ID := by
  intro u hu
  have hm : u.ID ∈ l.map Task.ID := by
    rw [← hids]
    exact List.mem_map_of_mem Task.ID hu
  obtain ⟨v, hv, hveq⟩ := List.mem_map.mp hm
  exact hveq ▸ hpos v hv

/-- The id invariant of claim C5: ids in the stored collection are pairwise
distinct and positive. -/
def IdsOK (s : RepoState) : Prop :=
  (s.tasks.map Task.ID).Nodup ∧ ∀ u ∈ s.tasks, 1 ≤ u.ID

theorem IdsOK_applyOp (s : RepoState) (op : Op) (h : IdsOK s) :
    IdsOK (applyOp s op) := by
  obtain ⟨hnodup, hpos⟩ := h
  cases op with
  | add d now =>
      by_cases hd : trimSpace d = ""
      · simpa only [applyOp, addTask_empty s d now hd] using ⟨hnodup, hpos⟩
      · simp only [applyOp, addTask_ok s d now hd, RepoState.Save]
        constructor
        · rw [List.map_append]
          refine List.Nodup.append hnodup (List.nodup_singleton _) ?_
          intro a ha hb
          obtain ⟨u, hu, rfl⟩ := List.mem_map.mp ha
          have hlt := id_lt_GetNextID s u hu
          simp only [List.map_cons, List.map_nil, List.mem_singleton] at hb
          rw [hb] at hlt
          exact absurd hlt (lt_irrefl _)
        · intro u hu
          rcases List.mem_append.mp hu with h1 | h1
          · exact hpos u h1
          · rw [List.mem_singleton] at h1
            rw [h1]
            exact GetNextID_pos s
  | update id d now =>
      simp only [applyOp, TaskService.UpdateTask, RepoState.Load]
      cases hres : updateTaskInList id d now s.tasks with
      | error e => exact ⟨hnodup, hpos⟩
      | ok l2 =>
          have hids := updateTaskInList_ok_ids id d now s.tasks l2 hres
          exact ⟨hids ▸ hnodup, pos_of_ids_eq s.tasks l2 hids hpos⟩
  | delete id =>
      simp only [applyOp, TaskService.DeleteTask, RepoState.Load]
      cases hres : deleteTaskInList id s.tasks with
      | error e => exact ⟨hnodup, hpos⟩
      | ok l2 =>
          have hsub := deleteTaskInList_ok_sublist id s.tasks l2 hres
          exact ⟨hnodup.sublist (hsub.map Task.ID),
            fun u hu => hpos u (hsub.subset hu)⟩
  | markInProgress id now =>
      simp only [applyOp, TaskService.MarkTaskInProgress,
        TaskService.updateTaskStatus, RepoState.Load]
      cases hres : updateStatusInList id (fun t => t.MarkInProgress now) s.tasks with
      | error e => exact ⟨hnodup, hpos⟩
      | ok l2 =>
          have hids := updateStatusInList_ok_ids id (fun t => t.MarkInProgress now)
            (fun u => rfl) s.tasks l2 hres
          exact ⟨hids ▸ hnodup, pos_of_ids_eq s.tasks l2 hids hpos⟩
  | markDone id now =>
      simp only [applyOp, TaskService.MarkTaskDone,
        TaskService.updateTaskStatus, RepoState.Load]
      cases hres : updateStatusInList id (fun t => t.MarkDone now) s.tasks with
      | error e => exact ⟨hnodup, hpos⟩
      | ok l2 =>
          have hids := updateStatusInList_ok_ids id (fun t => t.MarkDone now)
            (fun u => rfl) s.tasks l2 hres
          exact ⟨hids ▸ hnodup, pos_of_ids_eq s.tasks l2 hids hpos⟩

theorem IdsOK_runOps_of (s : RepoState) (ops : List Op) (h : IdsOK s) :
    IdsOK (runOps s ops) := by
  induction ops generalizing s with
  | nil => exact h
  | cons op ops ih => exact ih (applyOp s op) (IdsOK_applyOp s op h)

theorem IdsOK_runOps (ops : List Op) :
    IdsOK (runOps { tasks := [], saveCount := 0 } ops) :=
  IdsOK_runOps_of _ ops ⟨List.nodup_nil, by intro u hu; cases hu⟩

theorem applyEntityOp_CreatedAt (t : Task) (op : EntityOp) :
    (applyEntityOp t op).CreatedAt = t.CreatedAt := by
  cases op with
  | updateDescription d now =>
      simp only [applyEntityOp]
      cases h : t.UpdateDescription d now with
      | error e => rfl
      | ok t2 => exact (UpdateDescription_ok_fields _ _ _ _ h).2.1
  | markInProgress now => rfl
  | markDone now => rfl

theorem applyEntityOp_UpdatedAt (t : Task) (op : EntityOp) :
    (applyEntityOp t op).UpdatedAt = t.UpdatedAt ∨
      (applyEntityOp t op).UpdatedAt = op.time := by
  cases op with
  | updateDescription d now =>
      simp only [applyEntityOp]
      cases h : t.UpdateDescription d now with
      | error e => exact .inl rfl
      | ok t2 => exact .inr (UpdateDescription_ok_fields _ _ _ _ h).2.2.2.1
  | markInProgress now => exact .inr rfl
  | markDone now => exact .inr rfl

theorem runEntityOps_CreatedAt (t : Task) (ops : List EntityOp) :
    (runEntityOps t ops).CreatedAt = t.CreatedAt := by
  induction ops generalizing t with
  | nil => rfl
  | cons op ops ih =>
      show (runEntityOps (applyEntityOp t op) ops).CreatedAt = t.CreatedAt
      rw [ih (applyEntityOp t op), applyEntityOp_CreatedAt]

theorem runEntityOps_updated_ge (t : Task) (ops : List EntityOp)
    (h0 : t.CreatedAt ≤ t.UpdatedAt)
    (hclock : ∀ op ∈ ops, t.CreatedAt ≤ op.time) :
    (runEntityOps t ops).CreatedAt ≤ (runEntityOps t ops).UpdatedAt := by
  induction ops generalizing t with
  | nil => exact h0
  | cons op ops ih =>
      show (runEntityOps (applyEntityOp t op) ops).CreatedAt ≤
        (runEntityOps (applyEntityOp t op) ops).UpdatedAt
      have hC := applyEntityOp_CreatedAt t op
      apply ih (applyEntityOp t op)
      · rw [hC]
        rcases applyEntityOp_UpdatedAt t op with h1 | h1 <;> rw [h1]
        · exact h0
        · exact hclock op (List.mem_cons_self op ops)
      · intro op2 hop2
        rw [hC]
        exact hclock op2 (List.mem_cons_of_mem op hop2)

/-- A task carrying only an id, used for concrete collections in closed
statements about `GetNextID`. -/
def taskWithID (i : Int) : Task :=
  { ID := i, Description := "x", Status := StatusTodo, CreatedAt := 0, UpdatedAt := 0 }

/-- The empty repository state. -/
def emptyRepo : RepoState := { tasks := [], saveCount := 0 }

/-- A concrete repository state holding the ids `{1, 5, 3}`. -/
def repo153 : RepoState :=
  { tasks := [taskWithID 1, taskWithID 5, taskWithID 3], saveCount := 0 }

/-! ## Claims -/

/-- C1: for every description that is non-empty after trimming, `AddTask`
succeeds and returns a new task whose description is the trimmed input, whose
status is `todo`, whose id is `GetNextID` of the pre-state collection, and the
saved collection is the loaded collection with this task appended at the end. -/
theorem addTask_success_spec (s : RepoState) (d : String) (now : Nat)
    (hd : trimSpace d ≠ "") :
    ∃ t : Task,
      TaskService.AddTask s d now = (.ok t, s.Save (s.Load ++ [t])) ∧
      t.Description = trimSpace d ∧ t.Status = StatusTodo ∧
      t.ID = s.GetNextID := by
  exact ⟨_, addTask_ok s d now hd, rfl, rfl, rfl⟩

/-- Witness for C1: adding `" Buy milk "` to the empty store. -/
theorem addTask_success_spec_witness :
    ∃ t : Task,
      TaskService.AddTask { tasks := [], saveCount := 0 } " Buy milk " 5 =
        (.ok t, RepoState.Save { tasks := [], saveCount := 0 }
          (RepoState.Load { tasks := [], saveCount := 0 } ++ [t])) ∧
      t.Description = trimSpace " Buy milk " ∧ t.Status = StatusTodo ∧
      t.ID = RepoState.GetNextID { tasks := [], saveCount := 0 } :=
  addTask_success_spec { tasks := [], saveCount := 0 } " Buy milk " 5 (by decide)

/-- C2 counterexample: the claim quantifies over every collection, but on the
one-task collection whose id is `-5`, `GetNextID` returns `1` (the Go loop
starts its maximum at `0`), not `(max existing id) + 1 = -4`. -/
theorem getNextID_claim_counterexample :
    ¬ (∀ s : RepoState, (s.tasks = [] → s.GetNextID = 1) ∧
        (s.tasks ≠ [] → s.GetNextID = specMaxID s.tasks + 1)) := by
  intro h
  have h2 := (h { tasks := [taskWithID (-5)], saveCount := 0 }).2 (by decide)
  exact absurd h2 (by decide)

/-- C2 amended: `GetNextID` returns `1` on the empty collection, and on a
non-empty collection returns `max 0 (max existing id) + 1`, which equals
`(max existing id) + 1` whenever the maximum id is nonnegative; in particular
on a collection with ids `{1, 5, 3}` it returns `6`. -/
theorem getNextID_amended (s : RepoState) :
    (s.tasks = [] → s.GetNextID = 1) ∧
    (s.tasks ≠ [] → s.GetNextID = max 0 (specMaxID s.tasks) + 1) ∧
    (0 ≤ specMaxID s.tasks → s.GetNextID = specMaxID s.tasks + 1) ∧
    repo153.GetNextID = 6 := by
  have hmax : ∀ l : List Task, l ≠ [] → goMaxID l = max 0 (specMaxID l) := by
    intro l hl
    cases l with
    | nil => exact absurd rfl hl
    | cons t ts => exact goMaxID_eq_max_specMaxID t ts
  refine ⟨?_, ?_, ?_, by decide⟩
  · intro h
    simp only [RepoState.GetNextID, RepoState.Load, h, goMaxID, List.foldl_nil]
    omega
  · intro h
    simp only [RepoState.GetNextID, RepoState.Load, hmax s.tasks h]
  · intro h0
    rcases eq_or_ne s.tasks [] with hl | hl
    · rw [hl] at h0
      simp only [RepoState.GetNextID, RepoState.Load, hl, goMaxID,
        List.foldl_nil, specMaxID]
    · rw [RepoState.GetNextID, RepoState.Load, hmax s.tasks hl,
        max_eq_right h0]

/-- Witness for C2's amended theorem: the empty collection yields `1`, and a
nonnegative maximum makes the `+ 1` form exact. -/
theorem getNextID_amended_witness :
    emptyRepo.GetNextID = 1 ∧
    repo153.GetNextID = specMaxID repo153.tasks + 1 :=
  ⟨(getNextID_amended emptyRepo).1 rfl,
   (getNextID_amended repo153).2.2.1 (by decide)⟩

/-- C3: for every description empty after trimming, `AddTask` fails with
`ErrEmptyDescription` in any repository state, `UpdateTask` fails with
`ErrEmptyDescription` for every id present in the collection, and in both
cases the repository state (stored collection and save counter) is exactly
the pre-state: no save is performed. -/
theorem empty_description_rejected (s : RepoState) (d : String) (id : Int)
    (now : Nat) (hd : trimSpace d = "") :
    TaskService.AddTask s d now = (.error ErrEmptyDescription, s) ∧
    (∀ u ∈ s.Load, u.ID = id →
      TaskService.UpdateTask s id d now = (.error ErrEmptyDescription, s)) := by
  refine ⟨addTask_empty s d now hd, ?_⟩
  intro u hu hid
  simp only [TaskService.UpdateTask, RepoState.Load,
    updateTaskInList_empty_desc id d now s.tasks hd u hu hid]

/-- Witness for C3: a whitespace-only description rejected by `AddTask` on
the empty store and by `UpdateTask` on a store containing id `1`. -/
theorem empty_description_rejected_witness :
    TaskService.AddTask emptyRepo "   " 9 = (.error ErrEmptyDescription, emptyRepo) ∧
    TaskService.UpdateTask { tasks := [taskWithID 1], saveCount := 0 } 1 "   " 9 =
      (.error ErrEmptyDescription, { tasks := [taskWithID 1], saveCount := 0 }) :=
  ⟨(empty_description_rejected emptyRepo "   " 1 9 (by decide)).1,
   (empty_description_rejected { tasks := [taskWithID 1], saveCount := 0 } "   " 1 9
      (by decide)).2 (taskWithID 1) (by decide) (by decide)⟩

/-- C4: for every id not present in the loaded collection, `UpdateTask`,
`DeleteTask`, `MarkTaskInProgress` and `MarkTaskDone` all fail with
`ErrTaskNotFound` and return the repository state unchanged (same stored
collection, same save counter: no save is invoked). -/
theorem not_found_is_noop (s : RepoState) (id : Int) (d : String) (now : Nat)
    (h : ∀ u ∈ s.Load, u.ID ≠ id) :
    TaskService.UpdateTask s id d now = (.error ErrTaskNotFound, s) ∧
    TaskService.DeleteTask s id = (.error ErrTaskNotFound, s) ∧
    TaskService.MarkTaskInProgress s id now = (.error ErrTaskNotFound, s) ∧
    TaskService.MarkTaskDone s id now = (.error ErrTaskNotFound, s) := by
  have h2 : ∀ u ∈ s.tasks, u.ID ≠ id := h
  refine ⟨?_, ?_, ?_, ?_⟩
  · simp only [TaskService.UpdateTask, RepoState.Load,
      updateTaskInList_not_found id d now s.tasks h2]
  · simp only [TaskService.DeleteTask, RepoState.Load,
      deleteTaskInList_not_found id s.tasks h2]
  · simp only [TaskService.MarkTaskInProgress, TaskService.updateTaskStatus,
      RepoState.Load, updateStatusInList_not_found id _ s.tasks h2]
  · simp only [TaskService.MarkTaskDone, TaskService.updateTaskStatus,
      RepoState.Load, updateStatusInList_not_found id _ s.tasks h2]

/-- Witness for C4: id `9` is absent from a one-task store. -/
theorem not_found_is_noop_witness :
    TaskService.UpdateTask { tasks := [taskWithID 1], saveCount := 0 } 9 "d" 3 =
      (.error ErrTaskNotFound, { tasks := [taskWithID 1], saveCount := 0 }) ∧
    TaskService.DeleteTask { tasks := [taskWithID 1], saveCount := 0 } 9 =
      (.error ErrTaskNotFound, { tasks := [taskWithID 1], saveCount := 0 }) ∧
    TaskService.MarkTaskInProgress { tasks := [taskWithID 1], saveCount := 0 } 9 3 =
      (.error ErrTaskNotFound, { tasks := [taskWithID 1], saveCount := 0 }) ∧
    TaskService.MarkTaskDone { tasks := [taskWithID 1], saveCount := 0 } 9 3 =
      (.error ErrTaskNotFound, { tasks := [taskWithID 1], saveCount := 0 }) :=
  not_found_is_noop { tasks := [taskWithID 1], saveCount := 0 } 9 "d" 3 (by decide)

/-- C5: starting from the empty store, after every sequence of service
operations the stored task ids are pairwise distinct, and from any such
reachable state a successful `AddTask` assigns an id strictly greater than
every id already in the collection. -/
theorem ids_distinct_and_increasing (ops : List Op) :
    ((runOps emptyRepo ops).tasks.map Task.ID).Nodup ∧
    (∀ d now t s2,
      TaskService.AddTask (runOps emptyRepo ops) d now = (.ok t, s2) →
      ∀ u ∈ (runOps emptyRepo ops).tasks, u.ID < t.ID) := by
  constructor
  · exact (IdsOK_runOps ops).1
  · intro d now t s2 hadd u hu
    by_cases hd : trimSpace d = ""
    · rw [addTask_empty _ _ _ hd] at hadd
      injection hadd with h1 h2
      exact Except.noConfusion h1
    · rw [addTask_ok _ _ _ hd] at hadd
      injection hadd with h1 h2
      injection h1 with h3
      rw [← h3]
      exact id_lt_GetNextID _ u hu

/-- Witness for C5: one `add` from the empty store, then a concrete second
`AddTask` whose new id `2` exceeds the stored id `1`. -/
theorem ids_distinct_and_increasing_witness :
    ((runOps emptyRepo [Op.add "a" 0]).tasks.map Task.ID).Nodup ∧
    ({ ID := 1, Description := "a", Status := StatusTodo, CreatedAt := 0, UpdatedAt := 0 } : Task).ID <
      ({ ID := 2, Description := "b", Status := StatusTodo, CreatedAt := 1, UpdatedAt := 1 } : Task).ID := by
  constructor
  · exact (ids_distinct_and_increasing [Op.add "a" 0]).1
  · exact (ids_distinct_and_increasing [Op.add "a" 0]).2 "b" 1
      { ID := 2, Description := "b", Status := StatusTodo, CreatedAt := 1, UpdatedAt := 1 }
      { tasks := [{ ID := 1, Description := "a", Status := StatusTodo, CreatedAt := 0, UpdatedAt := 0 }, { ID := 2, Description := "b", Status := StatusTodo, CreatedAt := 1, UpdatedAt := 1 }], saveCount := 2 }
      (by decide)
      { ID := 1, Description := "a", Status := StatusTodo, CreatedAt := 0, UpdatedAt := 0 }
      (by decide)

/-- C6: `MarkInProgress` sets status to `in-progress` and `MarkDone` sets it
to `done`, unconditionally for every prior status and without error; marking
done twice leaves status `done` after both calls, sets `updatedAt` to the
timestamp of each call (so it advances under a non-decreasing clock), and
`createdAt` is untouched. -/
theorem mark_transitions (t : Task) (n1 n2 : Nat) (h : n1 ≤ n2) :
    (t.MarkInProgress n1).Status = StatusInProgress ∧
    (t.MarkDone n1).Status = StatusDone ∧
    ((t.MarkDone n1).MarkDone n2).Status = StatusDone ∧
    (t.MarkDone n1).UpdatedAt = n1 ∧
    ((t.MarkDone n1).MarkDone n2).UpdatedAt = n2 ∧
    (t.MarkDone n1).UpdatedAt ≤ ((t.MarkDone n1).MarkDone n2).UpdatedAt ∧
    ((t.MarkDone n1).MarkDone n2).CreatedAt = t.CreatedAt ∧
    (t.MarkInProgress n1).CreatedAt = t.CreatedAt :=
  ⟨rfl, rfl, rfl, rfl, rfl, h, rfl, rfl⟩

/-- Witness for C6: a concrete task marked at times `3` then `4`. -/
theorem mark_transitions_witness :
    ((taskWithID 1).MarkInProgress 3).Status = StatusInProgress ∧
    ((taskWithID 1).MarkDone 3).Status = StatusDone ∧
    (((taskWithID 1).MarkDone 3).MarkDone 4).Status = StatusDone ∧
    ((taskWithID 1).MarkDone 3).UpdatedAt = 3 ∧
    (((taskWithID 1).MarkDone 3).MarkDone 4).UpdatedAt = 4 ∧
    ((taskWithID 1).MarkDone 3).UpdatedAt ≤
      (((taskWithID 1).MarkDone 3).MarkDone 4).UpdatedAt ∧
    (((taskWithID 1).MarkDone 3).MarkDone 4).CreatedAt = (taskWithID 1).CreatedAt ∧
    ((taskWithID 1).MarkInProgress 3).CreatedAt = (taskWithID 1).CreatedAt :=
  mark_transitions (taskWithID 1) 3 4 (by decide)

/-- C7: for a task built by the entity constructor, `createdAt` is never
modified by any sequence of entity operations, and `updatedAt >= createdAt`
holds at construction and after every operation, provided every operation's
timestamp is at least the construction time (non-decreasing clock). -/
theorem createdAt_immutable_updatedAt_ge (id : Int) (d : String) (now0 : Nat)
    (t : Task) (hmk : NewTask id d now0 = .ok t) (ops : List EntityOp)
    (hclock : ∀ op ∈ ops, now0 ≤ op.time) :
    (runEntityOps t ops).CreatedAt = t.CreatedAt ∧
    t.CreatedAt = now0 ∧ t.CreatedAt ≤ t.UpdatedAt ∧
    (runEntityOps t ops).CreatedAt ≤ (runEntityOps t ops).UpdatedAt := by
  obtain ⟨hID, hD, hS, hC, hU⟩ := NewTask_ok_fields id d now0 t hmk
  refine ⟨runEntityOps_CreatedAt t ops, hC, ?_, ?_⟩
  · simp [hC, hU]
  · exact runEntityOps_updated_ge t ops (by simp [hC, hU])
      (fun op hop => by rw [hC]; exact hclock op hop)

/-- A concrete constructed task for the C7 witness. -/
def sampleTask : Task :=
  { ID := 1, Description := "a", Status := StatusTodo, CreatedAt := 2, UpdatedAt := 2 }

/-- Witness for C7: the task built at time `2`, marked done at time `5`. -/
theorem createdAt_immutable_updatedAt_ge_witness :
    (runEntityOps sampleTask [EntityOp.markDone 5]).CreatedAt = sampleTask.CreatedAt ∧
    sampleTask.CreatedAt = 2 ∧ sampleTask.CreatedAt ≤ sampleTask.UpdatedAt ∧
    (runEntityOps sampleTask [EntityOp.markDone 5]).CreatedAt ≤
      (runEntityOps sampleTask [EntityOp.markDone 5]).UpdatedAt :=
  createdAt_immutable_updatedAt_ge 1 "a" 2 sampleTask (by decide)
    [EntityOp.markDone 5] (by decide)

/-- C8: the file-repository load returns an empty collection (not an error)
when the storage artifact is absent, and when it exists but is empty; it
fails with a (wrapped) parse error when the persisted data does not
unmarshal; otherwise it returns the full persisted collection as stored. -/
theorem fileLoad_spec (um : String → Except String (List Task)) (data : String)
    (hne : data ≠ "") :
    FileTaskRepository.Load none um = .ok [] ∧
    FileTaskRepository.Load (some "") um = .ok [] ∧
    (∀ e, um data = .error e →
      FileTaskRepository.Load (some data) um =
        .error ("failed to unmarshal tasks: " ++ e)) ∧
    (∀ ts, um data = .ok ts →
      FileTaskRepository.Load (some data) um = .ok ts) := by
  refine ⟨rfl, ?_, ?_, ?_⟩
  · simp [FileTaskRepository.Load]
  · intro e he
    simp only [FileTaskRepository.Load, if_neg hne, he]
  · intro ts hts
    simp only [FileTaskRepository.Load, if_neg hne, hts]

/-- Witness for C8: a one-rule unmarshaller, absent file and garbage data. -/
theorem fileLoad_spec_witness :
    FileTaskRepository.Load none
      (fun d => if d = "[]" then .ok [] else .error "bad") = .ok [] ∧
    FileTaskRepository.Load (some "x")
      (fun d => if d = "[]" then .ok [] else .error "bad") =
      .error ("failed to unmarshal tasks: " ++ "bad") :=
  ⟨(fileLoad_spec (fun d => if d = "[]" then .ok [] else .error "bad") "x" (by decide)).1,
   (fileLoad_spec (fun d => if d = "[]" then .ok [] else .error "bad") "x" (by decide)).2.2.1
     "bad" (by decide)⟩

/-- C9: `ListTasks ""` returns all tasks in stored order; for every non-empty
filter, `ListTasks` returns exactly the in-order subsequence of tasks whose
status equals the filter; and a filter matching no task's status yields the
empty result, not an error. -/
theorem listTasks_spec (s : RepoState) (f : String) (hf : f ≠ "") :
    TaskService.ListTasks s "" = (.ok s.Load, s) ∧
    TaskService.ListTasks s f =
      (.ok (s.Load.filter (fun t => t.Status = f)), s) ∧
    ((∀ t ∈ s.Load, t.Status ≠ f) →
      TaskService.ListTasks s f = (.ok [], s)) := by
  refine ⟨?_, ?_, ?_⟩
  · simp [TaskService.ListTasks]
  · simp [TaskService.ListTasks, if_neg hf]
  · intro hnone
    simp only [TaskService.ListTasks, if_neg hf]
    have hfil : (RepoState.Load s).filter (fun t => t.Status = f) = [] := by
      rw [List.filter_eq_nil_iff]
      intro a ha
      simpa using hnone a ha
    rw [hfil]

/-- Witness for C9: listing `repo153` with the empty filter and `"bogus"`. -/
theorem listTasks_spec_witness :
    TaskService.ListTasks repo153 "" = (.ok repo153.Load, repo153) ∧
    TaskService.ListTasks repo153 "bogus" =
      (.ok (repo153.Load.filter (fun t => t.Status = "bogus")), repo153) ∧
    TaskService.ListTasks repo153 "bogus" = (.ok [], repo153) := by
  obtain ⟨h1, h2, h3⟩ := listTasks_spec repo153 "bogus" (by decide)
  exact ⟨h1, h2, h3 (by decide)⟩

/-- C10: the constructor succeeds exactly when the trimmed description is
non-empty, for any integer id (zero and negative included), and no entity or
service operation ever returns `ErrInvalidID`. -/
theorem invalidID_never_returned (id : Int) (d : String) (now : Nat) :
    ((trimSpace d ≠ "") → ∃ t, NewTask id d now = .ok t) ∧
    ((trimSpace d = "") → NewTask id d now = .error ErrEmptyDescription) ∧
    (∀ s e s2, TaskService.AddTask s d now = (.error e, s2) → e ≠ ErrInvalidID) ∧
    (∀ s e s2, TaskService.UpdateTask s id d now = (.error e, s2) → e ≠ ErrInvalidID) ∧
    (∀ s e s2, TaskService.DeleteTask s id = (.error e, s2) → e ≠ ErrInvalidID) ∧
    (∀ s e s2, TaskService.MarkTaskInProgress s id now = (.error e, s2) → e ≠ ErrInvalidID) ∧
    (∀ s e s2, TaskService.MarkTaskDone s id now = (.error e, s2) → e ≠ ErrInvalidID) ∧
    (∀ t e, Task.UpdateDescription t d now = .error e → e ≠ ErrInvalidID) := by
  refine ⟨?_, ?_, ?_, ?_, ?_, ?_, ?_, ?_⟩
  · intro hd
    refine ⟨{ ID := id, Description := trimSpace d, Status := StatusTodo, CreatedAt := now, UpdatedAt := now }, ?_⟩
    simp only [NewTask, if_neg hd]
  · intro hd
    simp only [NewTask, if_pos hd]
  · intro s e s2 h
    by_cases hd : trimSpace d = ""
    · rw [addTask_empty _ _ _ hd] at h
      injection h with h1 h2
      injection h1 with h3
      rw [← h3]
      decide
    · rw [addTask_ok _ _ _ hd] at h
      injection h with h1 h2
      exact Except.noConfusion h1
  · intro s e s2 h
    simp only [TaskService.UpdateTask, RepoState.Load] at h
    split at h
    · injection h with h1 h2
      injection h1 with h3
      rw [← h3]
      rename_i e2 heq
      rcases updateTaskInList_error id d now s.tasks e2 heq with h4 | h4 <;>
        rw [h4] <;> decide
    · injection h with h1 h2
      exact Except.noConfusion h1
  · intro s e s2 h
    simp only [TaskService.DeleteTask, RepoState.Load] at h
    split at h
    · injection h with h1 h2
      injection h1 with h3
      rw [← h3]
      rename_i e2 heq
      rw [deleteTaskInList_error id s.tasks e2 heq]
      decide
    · injection h with h1 h2
      exact Except.noConfusion h1
  · intro s e s2 h
    simp only [TaskService.MarkTaskInProgress, TaskService.updateTaskStatus,
      RepoState.Load] at h
    split at h
    · injection h with h1 h2
      injection h1 with h3
      rw [← h3]
      rename_i e2 heq
      rw [updateStatusInList_error id _ s.tasks e2 heq]
      decide
    · injection h with h1 h2
      exact Except.noConfusion h1
  · intro s e s2 h
    simp only [TaskService.MarkTaskDone, TaskService.updateTaskStatus,
      RepoState.Load] at h
    split at h
    · injection h with h1 h2
      injection h1 with h3
      rw [← h3]
      rename_i e2 heq
      rw [updateStatusInList_error id _ s.tasks e2 heq]
      decide
    · injection h with h1 h2
      exact Except.noConfusion h1
  · intro t e h
    rw [(UpdateDescription_error t d now e h).1]
    decide

/-- Witness for C10: a negative id is accepted with a valid description, and
a zero id still fails only on the empty description. -/
theorem invalidID_never_returned_witness :
    (∃ t, NewTask (-3) " hi " 0 = .ok t) ∧
    NewTask 0 "  " 0 = .error ErrEmptyDescription :=
  ⟨(invalidID_never_returned (-3) " hi " 0).1 (by decide),
   (invalidID_never_returned 0 "  " 0).2.1 (by decide)⟩

end TaskTracker
